import Mathlib

/-!
Verification of the BOT_SHASHA message-dispatch and conversational-memory
engine.  Each definition is a shallow embedding of one function of the
Python source (file and symbol named in its doc comment); numeric values
use `ℚ` for Python floats and lists for Python lists/deques/dicts.
-/

namespace ShashaBot

/-! ## Emotion recognizer (src/shasha_bot/memory/emotion.py) -/

/-- `memory/models.py` `UserEmotion`: label, intensity ∈ [0,1], confidence ∈ [0,1]. -/
structure UserEmotion where
  label : String
  intensity : ℚ
  confidence : ℚ
  deriving Repr, DecidableEq

/-- `memory/models.py` `UserEmotion.VALID_LABELS`: the fixed 8-label vocabulary. -/
def validLabels : List String :=
  ["neutral", "happy", "sad", "angry", "fear", "disgust", "surprise", "calm"]

/-- Python substring test `needle in haystack`, on the character sequence. -/
def containsSub (haystack : List Char) (needle : String) : Bool :=
  haystack.tails.any (fun t => needle.data.isPrefixOf t)

/-- Python blank test `not text or not text.strip()`: true iff every character is
whitespace (vacuously so for the empty string). -/
def isBlank (text : String) : Bool :=
  text.data.all Char.isWhitespace

/-- `EmotionRecognizer.EMOTION_KEYWORDS` as the run-time dict: entries in literal
order, except that the key "讨厌" appears twice in the source literal (once in the
angry block with value `("angry", 0.6)`, once in the disgust block with value
`("disgust", 0.6)`); Python dict-literal semantics keep the key at its first
position with the last value, so the single entry is `("讨厌", disgust, 0.6)` in
the angry block's position and the disgust block has no own "讨厌" entry. -/
def EMOTION_KEYWORDS : List (String × String × ℚ) :=
  [ ("开心", "happy", 7/10), ("高兴", "happy", 7/10), ("快乐", "happy", 7/10),
    ("好棒", "happy", 6/10), ("太好了", "happy", 7/10), ("哈哈", "happy", 6/10),
    ("嘻嘻", "happy", 5/10), ("233", "happy", 5/10), ("666", "happy", 5/10),
    ("厉害", "happy", 5/10), ("爱你", "happy", 8/10), ("喜欢", "happy", 6/10),
    ("❤", "happy", 6/10), ("😊", "happy", 6/10), ("😄", "happy", 7/10),
    ("🥰", "happy", 7/10),
    ("难过", "sad", 7/10), ("伤心", "sad", 7/10), ("悲伤", "sad", 8/10),
    ("哭了", "sad", 6/10), ("呜呜", "sad", 6/10), ("555", "sad", 5/10),
    ("郁闷", "sad", 6/10), ("不开心", "sad", 6/10), ("😢", "sad", 7/10),
    ("😭", "sad", 8/10), ("💔", "sad", 6/10),
    ("生气", "angry", 7/10), ("愤怒", "angry", 8/10), ("烦死了", "angry", 7/10),
    ("讨厌", "disgust", 6/10), ("滚", "angry", 7/10), ("傻逼", "angry", 8/10),
    ("垃圾", "angry", 6/10), ("去死", "angry", 9/10), ("😠", "angry", 7/10),
    ("😡", "angry", 8/10), ("🤬", "angry", 9/10),
    ("害怕", "fear", 7/10), ("恐惧", "fear", 8/10), ("吓人", "fear", 6/10),
    ("可怕", "fear", 6/10), ("😨", "fear", 7/10), ("😱", "fear", 8/10),
    ("恶心", "disgust", 7/10), ("呕", "disgust", 6/10), ("🤮", "disgust", 8/10),
    ("🤢", "disgust", 7/10),
    ("惊讶", "surprise", 7/10), ("震惊", "surprise", 8/10), ("天哪", "surprise", 6/10),
    ("卧槽", "surprise", 6/10), ("我靠", "surprise", 6/10), ("😮", "surprise", 6/10),
    ("😲", "surprise", 7/10), ("🤯", "surprise", 8/10),
    ("平静", "calm", 7/10), ("淡定", "calm", 7/10), ("冷静", "calm", 6/10),
    ("没事", "calm", 5/10), ("还好", "calm", 5/10), ("😌", "calm", 6/10) ]

/-- `EmotionRecognizer.PUNCTUATION_BOOST`. -/
def PUNCTUATION_BOOST : List (Char × ℚ) :=
  [('！', 1/10), ('!', 1/10), ('？', 1/20), ('?', 1/20), ('~', 1/20), ('。', -(1/20))]

/-- `emotion_scores[label] += intensity` on a dict kept as an insertion-ordered list
(Python dicts keep insertion order; an existing key keeps its position). -/
def addScore : List (String × ℚ) → String → ℚ → List (String × ℚ)
  | [], label, w => [(label, w)]
  | (l, s) :: rest, label, w =>
      if l = label then (l, s + w) :: rest else (l, s) :: addScore rest label w

/-- One iteration of the keyword-scan loop of `EmotionRecognizer.recognize`:
on `keyword in text_lower or keyword in text` add the keyword's weight to its
label's score and count the hit. -/
def scanStep (text textLower : List Char) (acc : List (String × ℚ) × ℕ)
    (kv : String × String × ℚ) : List (String × ℚ) × ℕ :=
  if containsSub textLower kv.1 || containsSub text kv.1 then
    (addScore acc.1 kv.2.1 kv.2.2, acc.2 + 1)
  else acc

/-- The keyword-scan loop of `EmotionRecognizer.recognize`: accumulates the
per-label score dict and the hit count over `EMOTION_KEYWORDS` in dict order. -/
def collectScores (text textLower : List Char) : List (String × ℚ) × ℕ :=
  EMOTION_KEYWORDS.foldl (scanStep text textLower) ([], 0)

/-- Python `max(emotion_scores, key=...)`: keeps the current best unless a later
element is strictly greater, so the first maximal key (in dict order) wins. -/
def bestOf : (String × ℚ) → List (String × ℚ) → (String × ℚ)
  | best, [] => best
  | best, (l, s) :: rest => bestOf (if s > best.2 then (l, s) else best) rest

/-- The punctuation-adjustment sum of `EmotionRecognizer.recognize`, using Python
`text.count(c)` for the single-character punctuation keys. -/
def punctBoost (text : List Char) : ℚ :=
  PUNCTUATION_BOOST.foldl (fun acc pb => acc + (text.count pb.1 : ℚ) * pb.2) 0

/-- Python `round(x, 2)`.  Every value this code rounds is an exact multiple of
1/100, on which every rounding mode agrees, so nearest-integer rounding of
`x * 100` is a faithful model. -/
def round2 (x : ℚ) : ℚ := (round (x * 100) : ℤ) / 100

/-- The non-blank arm of `EmotionRecognizer.recognize`, applied to the score
dict and hit count produced by the keyword scan. -/
def pickEmotion (text : List Char) : List (String × ℚ) × ℕ → UserEmotion
  | ([], _) => ⟨"neutral", 3/10, 1/2⟩
  | (s0 :: rest, hits) =>
      let best := bestOf s0 rest
      let baseIntensity := min 1 best.2
      let adjusted := max (1/10) (min 1 (baseIntensity + punctBoost text))
      let confidence := min (9/10) (4/10 + (hits : ℚ) * (15/100))
      ⟨best.1, round2 adjusted, round2 confidence⟩

/-- `EmotionRecognizer.recognize` (emotion.py lines 181-224).  `text.lower()` is
the character-wise lowercase map (no keyword is affected by Python's special
multi-character case foldings). -/
def recognize (text : String) : UserEmotion :=
  if isBlank text then
    ⟨"neutral", 3/10, 9/10⟩
  else
    pickEmotion text.data (collectScores text.data (text.data.map Char.toLower))

/-! ## Short-term / long-term memory data model
(src/shasha_bot/memory/models.py, src/shasha_bot/memory/manager.py) -/

/-- The metadata dict attached to turns; only the keys the embedded code reads
(`emotion`, `intensity`, `trigger`) are modelled, absent keys as `none`. -/
structure MetaData where
  emotion : Option String
  intensity : Option ℚ
  trigger : Option String
  deriving Repr, DecidableEq

/-- `models.py` `STMMessage`. -/
structure STMMessage where
  role : String
  text : String
  ts : ℚ
  meta : MetaData
  deriving Repr, DecidableEq

/-- The `while len(...) > max: pop(0)` loop of `MemoryManager.append_to_stm`:
drop from the front until the length is within the bound. -/
def trimFront {α : Type} (maxT : ℕ) : List α → List α
  | [] => []
  | x :: xs => if xs.length + 1 > maxT then trimFront maxT xs else x :: xs

/-- `MemoryManager.append_to_stm` (manager.py lines 141-169), restricted to its
effect on the short-term-memory list: append the new turn, then evict from the
front while over `stm_max_turns`. -/
def appendToStm (stmMaxTurns : ℕ) (stm : List STMMessage) (msg : STMMessage) :
    List STMMessage :=
  trimFront stmMaxTurns (stm ++ [msg])

/-- `models.py` `RelationState`. -/
structure RelationState where
  userId : String
  familiarity : ℚ
  trust : ℚ
  lastInteractionTs : ℚ
  deriving Repr, DecidableEq

/-- `models.py` `PersonalityFactors`. -/
structure PersonalityFactors where
  talkative : ℚ
  optimism : ℚ
  stability : ℚ
  politeness : ℚ
  deriving Repr, DecidableEq

/-- `models.py` `UserProfile`. -/
structure UserProfile where
  nickname : String
  selfDescriptions : List String
  deriving Repr, DecidableEq

/-- `models.py` `UserCounters` (the `version` field is never read). -/
structure UserCounters where
  totalMsgs : ℕ
  newMsgsSinceLastSummary : ℕ
  lastSummaryTs : ℚ
  deriving Repr, DecidableEq

/-- An entry of `long_term_memory` as built by `extract_ltm_from_stm`
(`{"type": "event", "text": ..., "ts": ..., "importance": ..., "meta": ...}`). -/
structure LtmEntry where
  kind : String
  text : String
  ts : ℚ
  importance : ℚ
  meta : MetaData
  deriving Repr, DecidableEq

/-- `models.py` `UserMemoryState`. -/
structure UserMemoryState where
  userId : String
  profile : UserProfile
  personality : PersonalityFactors
  shortTermMemory : List STMMessage
  longTermMemory : List LtmEntry
  counters : UserCounters
  deriving Repr, DecidableEq

/-! ## Long-term memory extraction (manager.py lines 410-507) -/

/-- The `important_keywords` list of `_calculate_message_importance`. -/
def importantKeywords : List String :=
  ["生日", "名字", "叫我", "住在", "工作", "学校", "喜欢", "讨厌",
   "重要", "记住", "别忘了", "告诉你", "秘密", "只有你知道",
   "我是", "我的", "我们", "永远", "最"]

/-- `MemoryManager._calculate_message_importance` (manager.py lines 467-496). -/
def calcImportance (text : String) (meta : MetaData) : ℚ :=
  let b0 : ℚ := 3/10
  let b1 := if text.length > 50 then b0 + 1/10 else b0
  let b2 := if text.length > 100 then b1 + 1/10 else b1
  let b3 := importantKeywords.foldl
    (fun acc kw => if containsSub text.data kw then acc + 1/10 else acc) b2
  let emotion := meta.emotion.getD "neutral"
  let b4 :=
    if (emotion = "happy" ∨ emotion = "sad" ∨ emotion = "angry") ∧
        meta.intensity.getD 0 > 7/10 then
      b3 + 15/100
    else b3
  let b5 :=
    match meta.trigger with
    | some t => if t = "mentioned_text" ∨ t = "random_chitchat" then b4 + 1/20 else b4
    | none => b4
  min 1 b5

/-- `MemoryManager._is_duplicate_ltm` (manager.py lines 498-507): exact text
match, or matching 20-character prefixes when the new text is longer than 10
characters. -/
def isDuplicateLtm (ltmList : List LtmEntry) (newEntry : LtmEntry) : Bool :=
  ltmList.any (fun e =>
    decide (e.text = newEntry.text) ||
      (decide (newEntry.text.length > 10) && decide (newEntry.text.take 20 = e.text.take 20)))

/-- The LTM entry `extract_ltm_from_stm` builds for a promoted user turn: the
text truncated to 200 characters, the turn's timestamp and metadata, and the
computed importance. -/
def ltmEntryOf (msg : STMMessage) : LtmEntry :=
  { kind := "event", text := msg.text.take 200, ts := msg.ts,
    importance := calcImportance msg.text msg.meta, meta := msg.meta }

/-- One iteration of the extraction loop of `extract_ltm_from_stm`: skip
non-user turns; score the text; at importance ≥ 0.7 build the entry and append
it unless it is a near-duplicate of an entry already in the list. -/
def processStmMsg (ltm : List LtmEntry) (msg : STMMessage) : List LtmEntry :=
  if msg.role ≠ "user" then ltm
  else if 7/10 ≤ calcImportance msg.text msg.meta then
    if isDuplicateLtm ltm (ltmEntryOf msg) then ltm else ltm ++ [ltmEntryOf msg]
  else ltm

/-- The LTM list after the extraction loop and before the size cap. -/
def midLtm (stm : List STMMessage) (ltm0 : List LtmEntry) : List LtmEntry :=
  stm.foldl processStmMsg ltm0

/-- Python `list.sort(key=lambda x: (importance, ts), reverse=True)`: `a` may
precede `b` iff `a`'s `(importance, ts)` is lexicographically ≥ `b`'s. -/
def ltmKeyGE (a b : LtmEntry) : Bool :=
  decide (b.importance < a.importance) ||
    (decide (a.importance = b.importance) && decide (b.ts ≤ a.ts))

/-- The size cap of `extract_ltm_from_stm` (manager.py lines 454-459): over 50
entries, sort by `(importance, ts)` descending and keep the first 50. -/
def capLtm (l : List LtmEntry) : List LtmEntry :=
  if l.length > 50 then (l.mergeSort ltmKeyGE).take 50 else l

/-- `MemoryManager.extract_ltm_from_stm` (manager.py lines 410-465), restricted
to its effect on the long-term-memory list: unchanged when fewer than 5 STM
turns, otherwise run the extraction loop and apply the size cap. -/
def extractLtm (stm : List STMMessage) (ltm0 : List LtmEntry) : List LtmEntry :=
  if stm.length < 5 then ltm0
  else capLtm (midLtm stm ltm0)

/-! ## Rate limiter (src/shasha_bot/router.py `SimpleRateLimiter`) -/

/-- Association-list update with Python dict semantics: replace the value in
place, or append the key at the end when absent. -/
def alistSet {β : Type} : List (String × β) → String → β → List (String × β)
  | [], k, v => [(k, v)]
  | (k', v') :: rest, k, v =>
      if k' = k then (k, v) :: rest else (k', v') :: alistSet rest k v

/-- A `Dict[str, Deque[float]]` window store; each deque holds timestamps in
append order. -/
def CallStore : Type := List (String × List ℚ)

/-- `SimpleRateLimiter` configuration after `__init__` clamping
(`window_seconds ≥ 1`, per-window maxima ≥ 1). -/
structure RateLimiterConfig where
  enabled : Bool
  windowSeconds : ℚ
  userMaxCalls : ℕ
  groupMaxCalls : ℕ
  deriving Repr, DecidableEq

/-- `SimpleRateLimiter._evict_old`: `while q and q[0] < now - window: q.popleft()`. -/
def evictOld (window now : ℚ) (q : List ℚ) : List ℚ :=
  q.dropWhile (fun t => decide (t < now - window))

/-- `SimpleRateLimiter._allow` (router.py lines 60-67): look up (inserting an
empty deque if absent, as `setdefault` does), evict old timestamps, reject when
at the limit, otherwise record `now` and admit. -/
def allowOne (window : ℚ) (limit : ℕ) (now : ℚ) (store : CallStore) (key : String) :
    Bool × CallStore :=
  let q := ((store.lookup key).getD [])
  let q' := evictOld window now q
  if limit ≤ q'.length then (false, alistSet store key q')
  else (true, alistSet store key (q' ++ [now]))

/-- The two window stores of a `SimpleRateLimiter` instance. -/
structure RateLimiterState where
  userCalls : CallStore
  groupCalls : CallStore

/-- `SimpleRateLimiter.allow` (router.py lines 69-79): disabled means always
admitted; else check the per-user window first (short-circuiting on rejection
before touching the group store), then the per-group window.  Both `_allow`
calls read `time.time()`; the same `now` models both reads. -/
def rlAllow (cfg : RateLimiterConfig) (st : RateLimiterState) (now : ℚ)
    (userId groupId : Option Int) : Bool × RateLimiterState :=
  if cfg.enabled = false then (true, st)
  else
    let afterUser : Bool × RateLimiterState :=
      match userId with
      | none => (true, st)
      | some uid =>
          let r := allowOne cfg.windowSeconds cfg.userMaxCalls now st.userCalls (toString uid)
          (r.1, { st with userCalls := r.2 })
    if afterUser.1 = false then (false, afterUser.2)
    else
      match groupId with
      | none => (true, afterUser.2)
      | some gid =>
          let r := allowOne cfg.windowSeconds cfg.groupMaxCalls now
            afterUser.2.groupCalls (toString gid)
          (r.1, { afterUser.2 with groupCalls := r.2 })

/-! ## Pending callback entries (src/shasha_bot/router.py, handlers/reply.py) -/

/-- `router.py` `ReplyContext` (lines 31-39); `created_at` defaults to `0.0`. -/
structure ReplyContext where
  userId : Option Int
  groupId : Option Int
  messageType : String
  messageId : Int
  rawMsg : String
  createdAt : ℚ
  deriving Repr, DecidableEq

/-- The `pending_requests` dict, keyed by correlation token. -/
def PendingMap : Type := List (String × ReplyContext)

/-- The expiry test of `cleanup_expired_pending_requests`:
`value.created_at and now - value.created_at > ttl_seconds` — an entry with
falsy (zero) `created_at` is never considered expired. -/
def isExpired (now ttl : ℚ) (rc : ReplyContext) : Bool :=
  decide (rc.createdAt ≠ 0) && decide (ttl < now - rc.createdAt)

/-- `cleanup_expired_pending_requests` (router.py lines 334-345): remove every
entry whose expiry test holds. -/
def cleanupExpired (pending : PendingMap) (now ttl : ℚ) : PendingMap :=
  pending.filter (fun kv => !(isExpired now ttl kv.2))

/-- `ReplyHandler.handle` (handlers/reply.py lines 30-44), restricted to its
effect on the pending map: on a reply-tagged message store the context under
`reply_check_<message_id>` (with `created_at` left at its `0.0` default — the
constructor call passes no `created_at`) and report handled; otherwise no
change.  Python `not ctx.reply_id` is true for both `None` and `""`. -/
def replyHandlerHandle (pending : PendingMap) (messageId : Option Int)
    (replyId : Option String) (userId groupId : Option Int)
    (messageType rawMsg : String) : PendingMap × Bool :=
  match messageId, replyId with
  | none, _ => (pending, false)
  | _, none => (pending, false)
  | some mid, some rid =>
      if rid = "" then (pending, false)
      else
        (alistSet pending ("reply_check_" ++ toString mid)
          { userId := userId, groupId := groupId, messageType := messageType,
            messageId := mid, rawMsg := rawMsg, createdAt := 0 }, true)

/-! ## Reply-callback handler (src/shasha_bot/handlers/reply.py
`ReplyCallbackHandler.handle`, mirrored by router.py `run_reply_callback`) -/

/-- The pure text helpers of `cq.py` used by the handler, taken as parameters:
the theorems about the handler hold for every choice of them. -/
structure TextFns where
  extractImageUrl : String → Option String
  normalizeUserText : String → String

/-- One observable side effect of the callback handler: a provider call, a
memory operation, or an outbound send. -/
inductive Effect
  | providerVision (url : String)
  | providerEdit (url prompt : String)
  | providerText (prompt : String)
  | emotionRecognize (text : String)
  | memAppendStm (userId role text : String)
  | memUpdateRelation (userId : String)
  | memUpdateBotEmotion
  | sendPayload (messageType : String) (userId groupId : Option Int) (message : String)
  deriving Repr, DecidableEq

/-- The provider replies and memory context the handler consumes, taken as
oracles; `emotionResult = none` models the caught-exception branch of the
emotion recognition. -/
structure ReplyOracles where
  visionReply : String → String
  editReply : String → String → String
  textReply : String → String
  emotionResult : Option UserEmotion
  memoryPresent : Bool

/-- Python `dict.pop(key, None)`: return the stored value (if any) and the map
without that key. -/
def pendingPop (pending : PendingMap) (k : String) : Option ReplyContext × PendingMap :=
  match pending.lookup k with
  | none => (none, pending)
  | some v => (some v, pending.filter (fun kv => !(kv.1 = k : Bool)))

/-- Python `str(saved.user_id) if saved.user_id else None`: `None` and `0` are
both falsy. -/
def pyUserIdStr : Option Int → Option String
  | none => none
  | some u => if u = 0 then none else some (toString u)

/-- `ReplyCallbackHandler.handle` (handlers/reply.py lines 50-146): pop the
pending entry for the callback's `echo` token; when no entry is found return
immediately with no effect; otherwise compute the reply (image-edit / vision /
text provider), perform the memory writes when a memory manager and a truthy
user id are present, and send the quoted reply.  Returns the new pending map,
the effect trace in order, and the handled flag. -/
def replyCallbackHandle (tf : TextFns) (o : ReplyOracles) (pending : PendingMap)
    (echo : String) (targetMsg : String) : PendingMap × List Effect × Bool :=
  match pendingPop pending echo with
  | (none, p) => (p, [], false)
  | (some saved, p) =>
      let userId := pyUserIdStr saved.userId
      let targetImgUrl := tf.extractImageUrl targetMsg
      let userMsgClean := tf.normalizeUserText saved.rawMsg
      let replyAndCall : String × List Effect :=
        match targetImgUrl with
        | some url =>
            if userMsgClean.startsWith "编辑=" then
              let editPrompt := (userMsgClean.drop 3).trim
              if editPrompt = "" then
                ("请在\x27编辑=\x27后面加上你的修图指令哦~", [])
              else (o.editReply url editPrompt, [Effect.providerEdit url editPrompt])
            else (o.visionReply url, [Effect.providerVision url])
        | none =>
            let userQuestion :=
              if userMsgClean = "" then "（盯着你回复的消息看）" else userMsgClean
            let fullPrompt :=
              "我回复了消息：\x27" ++ targetMsg ++ "\x27。\n我的评论是：" ++ userQuestion
            (o.textReply fullPrompt, [Effect.providerText fullPrompt])
      let memEffects : List Effect :=
        match o.memoryPresent, userId with
        | true, some uid =>
            [Effect.emotionRecognize
                (if userMsgClean = "" then "（回复了一条消息）" else userMsgClean),
             Effect.memAppendStm uid "user"
                (if userMsgClean = "" then "[回复消息: " ++ targetMsg.take 30 ++ "...]"
                 else "[回复消息] " ++ userMsgClean),
             Effect.memAppendStm uid "assistant" replyAndCall.1,
             Effect.memUpdateRelation uid] ++
              (match o.emotionResult with
               | some _ => [Effect.memUpdateBotEmotion]
               | none => [])
        | _, _ => []
      (p,
       replyAndCall.2 ++ memEffects ++
         [Effect.sendPayload saved.messageType saved.userId saved.groupId
            ("[CQ:reply,id=" ++ toString saved.messageId ++ "] " ++ replyAndCall.1)],
       true)

/-! ## Dispatcher (src/shasha_bot/router.py `dispatch`) -/

/-- One rule of the command list, specialised to a fixed event: the value of
its `match` predicate on that event and the flag its `run` returns
(`FunctionCommand.run`, used for every rule the bot assembles, always returns
`True`). -/
structure CommandSpec where
  matchRes : Bool
  handledRet : Bool
  deriving Repr, DecidableEq

/-- One step of the dispatcher's observable behaviour, in execution order. -/
inductive DispatchStep
  | purge
  | rateCheck
  | waitNotice
  | evalMatch (i : ℕ)
  | execRun (i : ℕ)
  deriving Repr, DecidableEq

/-- The rule loop of `dispatch`: try `cmd.match` in list order; on a match run
the command, and stop only if `run` reported handled. -/
def runCommands : ℕ → List CommandSpec → List DispatchStep × Bool
  | _, [] => ([], false)
  | i, c :: rest =>
      if c.matchRes then
        if c.handledRet then ([DispatchStep.evalMatch i, DispatchStep.execRun i], true)
        else
          let r := runCommands (i + 1) rest
          (DispatchStep.evalMatch i :: DispatchStep.execRun i :: r.1, r.2)
      else
        let r := runCommands (i + 1) rest
        (DispatchStep.evalMatch i :: r.1, r.2)

/-- The result of one `dispatch` call: the ordered step trace, the returned
handled flag, the purged pending map and the rate-limiter state. -/
structure DispatchResult where
  trace : List DispatchStep
  handled : Bool
  pending : PendingMap
  limiter : Option RateLimiterState

/-- `dispatch` (router.py lines 350-366): purge expired pending entries first;
then, for a message event with a rate limiter, run admission control — a
rejected event gets the fixed wait notice and is handled without touching any
rule; otherwise evaluate the rules in order. -/
def dispatch (cmds : List CommandSpec) (pending : PendingMap) (now : ℚ)
    (isMessageEvent : Bool) (rateLimiter : Option (RateLimiterConfig × RateLimiterState))
    (userId groupId : Option Int) : DispatchResult :=
  let p := cleanupExpired pending now 60
  match isMessageEvent, rateLimiter with
  | true, some (cfg, st) =>
      let r := rlAllow cfg st now userId groupId
      if r.1 = false then
        { trace := [DispatchStep.purge, DispatchStep.rateCheck, DispatchStep.waitNotice],
          handled := true, pending := p, limiter := some r.2 }
      else
        let rc := runCommands 0 cmds
        { trace := DispatchStep.purge :: DispatchStep.rateCheck :: rc.1,
          handled := rc.2, pending := p, limiter := some r.2 }
  | _, _ =>
      let rc := runCommands 0 cmds
      { trace := DispatchStep.purge :: rc.1, handled := rc.2, pending := p,
        limiter := rateLimiter.map Prod.snd }

/-! ## Circuit breaker (src/shasha_bot/ai/deepseek.py `DeepSeekText._chat`) -/

/-- The `DeepSeekText` fields the breaker reads. -/
structure ChatConfig where
  apiKey : String
  retryAttempts : ℕ
  failThreshold : ℕ
  cooldownSeconds : ℚ
  deriving Repr, DecidableEq

/-- The mutable breaker state `_fail_count` / `_circuit_open_until`. -/
structure ChatState where
  failCount : ℕ
  openUntil : ℚ
  deriving Repr, DecidableEq

/-- The retry loop of `_chat`: each element of `outcomes` is one provider
attempt — its wall-clock time and `some content` on success or `none` on
failure.  Success resets `_fail_count` and returns; each failure increments
`_fail_count` and, at `fail_threshold` or above, (re)opens the circuit until
`t + cooldown`; the last attempt's failure returns the fixed fallback text.
The third component counts provider invocations. -/
def runAttempts (cfg : ChatConfig) : ChatState → List (ℚ × Option String) →
    ChatState × String × ℕ
  | st, [] => (st, "脑子瓦特了...", 0)
  | st, (_, some content) :: _ => ({ st with failCount := 0 }, content, 1)
  | st, (t, none) :: rest =>
      let fc := st.failCount + 1
      let st' :=
        if cfg.failThreshold ≤ fc then
          { failCount := fc, openUntil := t + cfg.cooldownSeconds }
        else { st with failCount := fc }
      match rest with
      | [] => (st', "脑子瓦特了...", 1)
      | _ :: _ =>
          let r := runAttempts cfg st' rest
          (r.1, r.2.1, r.2.2 + 1)

/-- `DeepSeekText._chat` (deepseek.py lines 48-74): missing key returns the
config notice; an open circuit (`now < _circuit_open_until`) returns the fixed
busy reply without any provider invocation; otherwise the retry loop runs.
`outcomes` must list `max(1, retry_attempts + 1)` attempts for a faithful run. -/
def chat (cfg : ChatConfig) (st : ChatState) (callTime : ℚ)
    (outcomes : List (ℚ × Option String)) : ChatState × String × ℕ :=
  if cfg.apiKey = "" then (st, "未配置 DEEPSEEK_API_KEY", 0)
  else if callTime < st.openUntil then (st, "现在有点忙，稍后再找我聊聊吧~", 0)
  else runAttempts cfg st outcomes

/-! ## Async recognition with remote classifier
(src/shasha_bot/memory/emotion.py `recognize_async`,
src/shasha_bot/ai/siliconflow.py `SiliconFlowEmotionClient.recognize_emotion`) -/

/-- The network outcome of the remote classification call; `success` carries
the already-parsed `_parse_emotion_response` triple. -/
inductive LlmOutcome
  | timeout
  | failure
  | success (label : String) (intensity confidence : ℚ)

/-- `SiliconFlowEmotionClient.recognize_emotion` (siliconflow.py lines 52-100):
every branch returns normally — the client catches its own timeout and every
other exception (lines 95-100) and returns the fixed degraded triple
`("neutral", 0.5, 0.3)` instead of raising. -/
def recognizeEmotionClient (apiKey : String) (text : String) (outcome : LlmOutcome) :
    String × ℚ × ℚ :=
  if isBlank text then ("neutral", 3/10, 9/10)
  else if apiKey = "" then ("neutral", 1/2, 1/2)
  else
    match outcome with
    | .timeout => ("neutral", 1/2, 3/10)
    | .failure => ("neutral", 1/2, 3/10)
    | .success l i c => (l, i, c)

/-- `EmotionRecognizer.recognize_async` (emotion.py lines 147-179): blank text
and short text (< 10 characters) short-circuit to the rule path; a confident
non-neutral rule result is returned directly; otherwise, with an LLM client
configured, the client's result is wrapped — the `except` fallback to the rule
result is unreachable because `recognize_emotion` never raises. -/
def recognizeAsync (text : String) (useLlm hasClient : Bool) (apiKey : String)
    (outcome : LlmOutcome) : UserEmotion :=
  if isBlank text then ⟨"neutral", 3/10, 9/10⟩
  else if text.length < 10 then recognize text
  else
    let ruleResult := recognize text
    if 7/10 ≤ ruleResult.confidence ∧ ruleResult.label ≠ "neutral" then ruleResult
    else if useLlm ∧ hasClient then
      let r := recognizeEmotionClient apiKey text outcome
      ⟨r.1, r.2.1, r.2.2⟩
    else ruleResult

/-! ## Per-user persistence (src/shasha_bot/memory/manager.py,
src/shasha_bot/memory/storage.py) -/

/-- The JSON record `Storage.save_user` writes for one user: the six keys of
`UserMemoryState.to_dict`, plus the optional `relation` key that only
`save_relation` adds.  `core = none` models a dict without the core keys (as
after `save_relation` on a fresh user). -/
structure StoredRecord where
  core : Option UserMemoryState
  relation : Option RelationState
  deriving Repr, DecidableEq

/-- `UserMemoryState.to_dict` (models.py lines 107-115): serialises exactly the
six core keys — it emits no `relation` key. -/
def toStoredRecord (s : UserMemoryState) : StoredRecord :=
  { core := some s, relation := none }

/-- The manager's per-user slice: the two caches and the persisted file
(`none` = file absent, `load_user` then returns `{}`). -/
structure ManagerSlice where
  userCache : Option UserMemoryState
  relationCache : Option RelationState
  file : Option StoredRecord
  deriving Repr, DecidableEq

/-- `UserMemoryState(user_id=...)` with all dataclass defaults. -/
def freshUserState (uid : String) : UserMemoryState :=
  { userId := uid, profile := { nickname := "", selfDescriptions := [] },
    personality := { talkative := 1/2, optimism := 1/2, stability := 1/2, politeness := 1/2 },
    shortTermMemory := [], longTermMemory := [], counters :=
      { totalMsgs := 0, newMsgsSinceLastSummary := 0, lastSummaryTs := 0 } }

/-- `RelationState(user_id=...)` with its dataclass defaults. -/
def freshRelation (uid : String) : RelationState :=
  { userId := uid, familiarity := 1/10, trust := 1/2, lastInteractionTs := 0 }

/-- `MemoryManager.get_user_state` (manager.py lines 82-94): serve from cache,
else from the persisted record when it has the core keys, else a fresh state;
cache the result. -/
def getUserState (uid : String) (m : ManagerSlice) : UserMemoryState × ManagerSlice :=
  match m.userCache with
  | some s => (s, m)
  | none =>
      let s :=
        match m.file with
        | some r =>
            match r.core with
            | some c => c
            | none => freshUserState uid
        | none => freshUserState uid
      (s, { m with userCache := some s })

/-- `MemoryManager.save_user_state` (manager.py lines 96-102): nothing to do
without a cached state; else overwrite the persisted file with exactly
`state.to_dict()`. -/
def saveUserState (m : ManagerSlice) : ManagerSlice :=
  match m.userCache with
  | none => m
  | some s => { m with file := some (toStoredRecord s) }

/-- `MemoryManager.get_relation` (manager.py lines 104-117). -/
def getRelation (uid : String) (m : ManagerSlice) : RelationState × ManagerSlice :=
  match m.relationCache with
  | some r => (r, m)
  | none =>
      let r :=
        match m.file with
        | some rec =>
            match rec.relation with
            | some rel => rel
            | none => freshRelation uid
        | none => freshRelation uid
      (r, { m with relationCache := some r })

/-- `MemoryManager.save_relation` (manager.py lines 119-129): load the current
record (an empty dict when the file is absent), set its `relation` key, and
save. -/
def saveRelation (m : ManagerSlice) : ManagerSlice :=
  match m.relationCache with
  | none => m
  | some rel =>
      let data := m.file.getD { core := none, relation := none }
      { m with file := some { data with relation := some rel } }

/-- `MemoryManager.append_to_stm` (manager.py lines 141-169) as a slice
transformer: get the state, append the turn with the STM cap, bump the user
counters, persist via `save_user_state`. -/
def appendToStmOp (stmMaxTurns : ℕ) (uid role text : String) (now : ℚ)
    (meta : MetaData) (m : ManagerSlice) : ManagerSlice :=
  let r := getUserState uid m
  let s := r.1
  let stm := appendToStm stmMaxTurns s.shortTermMemory
    { role := role, text := text, ts := now, meta := meta }
  let counters :=
    if role = "user" then
      { s.counters with
        totalMsgs := s.counters.totalMsgs + 1
        newMsgsSinceLastSummary := s.counters.newMsgsSinceLastSummary + 1 }
    else s.counters
  saveUserState { r.2 with userCache := some { s with shortTermMemory := stm, counters := counters } }

/-- `MemoryManager.update_relation_on_interaction` (manager.py lines 216-226):
bump familiarity by the configured step (capped at 1), stamp the time, persist
via `save_relation`. -/
def updateRelationOnInteraction (familiarityStep : ℚ) (uid : String) (now : ℚ)
    (m : ManagerSlice) : ManagerSlice :=
  let r := getRelation uid m
  let rel := { r.1 with
               familiarity := min 1 (r.1.familiarity + familiarityStep)
               lastInteractionTs := now }
  saveRelation { r.2 with relationCache := some rel }

/-- Index of the first rule whose match predicate holds. -/
def firstMatchIdx : List CommandSpec → Option ℕ
  | [] => none
  | c :: rest => if c.matchRes then some 0 else (firstMatchIdx rest).map (· + 1)

/-- Spec-side description of the rule loop (spec §4.5): rules are tried
strictly in list order and exactly the first rule whose match predicate holds
executes; with no match, every rule is evaluated and the event is unhandled.
Compared against the `runCommands` embedding in the C5 theorem. -/
def specFirstMatchTrace (cmds : List CommandSpec) : List DispatchStep × Bool :=
  match firstMatchIdx cmds with
  | some i =>
      ((List.range (i + 1)).map DispatchStep.evalMatch ++ [DispatchStep.execRun i], true)
  | none => ((List.range cmds.length).map DispatchStep.evalMatch, false)

/-- Trivial text helpers, for concrete instantiations. -/
def tfId : TextFns := { extractImageUrl := fun _ => none, normalizeUserText := fun s => s }

/-- Trivial oracles, for concrete instantiations. -/
def oTrivial : ReplyOracles :=
  { visionReply := fun _ => "", editReply := fun _ _ => "", textReply := fun _ => "",
    emotionResult := none, memoryPresent := false }

/-! ### Helper lemmas for the recognizer -/

theorem round2_mono {x y : ℚ} (h : x ≤ y) : round2 x ≤ round2 y := by
  unfold round2
  have hr : round (x * 100) ≤ round (y * 100) := by
    rw [round_eq, round_eq]
    exact Int.floor_le_floor (by linarith)
  have : ((round (x * 100) : ℤ) : ℚ) ≤ ((round (y * 100) : ℤ) : ℚ) := by exact_mod_cast hr
  linarith

theorem round2_fix {x : ℚ} {n : ℤ} (h : x * 100 = (n : ℚ)) : round2 x = x := by
  unfold round2
  rw [h, round_intCast, ← h]
  ring

theorem addScore_ne_nil (l : List (String × ℚ)) (lab : String) (w : ℚ) :
    addScore l lab w ≠ [] := by
  match l with
  | [] => simp [addScore]
  | (a, s) :: rest =>
    simp only [addScore]
    split <;> simp

theorem addScore_labels (l : List (String × ℚ)) (lab : String) (w : ℚ) :
    ∀ p ∈ addScore l lab w, p.1 = lab ∨ ∃ q ∈ l, p.1 = q.1 := by
  induction l with
  | nil => simp [addScore]
  | cons hd tl ih =>
    intro p hp
    obtain ⟨a, s⟩ := hd
    simp only [addScore] at hp
    split at hp
    · rcases List.mem_cons.mp hp with h | h
      · subst h; right; exact ⟨(a, s), by simp, rfl⟩
      · right; exact ⟨p, by simp [h], rfl⟩
    · rcases List.mem_cons.mp hp with h | h
      · subst h; right; exact ⟨(a, s), by simp, rfl⟩
      · rcases ih p h with h' | ⟨q, hq, hq'⟩
        · exact Or.inl h'
        · exact Or.inr ⟨q, by simp [hq], hq'⟩

theorem foldl_scanStep_labels (P : String → Prop) (text tl : List Char)
    (kws : List (String × String × ℚ)) :
    ∀ acc : List (String × ℚ) × ℕ, (∀ p ∈ acc.1, P p.1) → (∀ kv ∈ kws, P kv.2.1) →
      ∀ p ∈ (kws.foldl (scanStep text tl) acc).1, P p.1 := by
  induction kws with
  | nil => intro acc hacc _ p hp; exact hacc p hp
  | cons kv rest ih =>
    intro acc hacc hkws p hp
    rw [List.foldl_cons] at hp
    refine ih (scanStep text tl acc kv) ?_ (fun k hk => hkws k (by simp [hk])) p hp
    intro q hq
    unfold scanStep at hq
    split at hq
    · rcases addScore_labels acc.1 kv.2.1 kv.2.2 q hq with h | ⟨r, hr, hr'⟩
      · rw [h]; exact hkws kv (by simp)
      · rw [hr']; exact hacc r hr
    · exact hacc q hq

theorem foldl_scanStep_ne_nil (text tl : List Char) (kws : List (String × String × ℚ)) :
    ∀ acc : List (String × ℚ) × ℕ, acc.1 ≠ [] →
      (kws.foldl (scanStep text tl) acc).1 ≠ [] := by
  induction kws with
  | nil => intro acc h; simpa using h
  | cons kv rest ih =>
    intro acc h
    rw [List.foldl_cons]
    refine ih _ ?_
    unfold scanStep
    split
    · exact addScore_ne_nil _ _ _
    · exact h

theorem foldl_scanStep_no_hit (text tl : List Char) (kws : List (String × String × ℚ))
    (hmiss : ∀ kv ∈ kws, containsSub tl kv.1 = false ∧ containsSub text kv.1 = false) :
    ∀ acc : List (String × ℚ) × ℕ, kws.foldl (scanStep text tl) acc = acc := by
  induction kws with
  | nil => intro acc; rfl
  | cons kv rest ih =>
    intro acc
    rw [List.foldl_cons]
    have h1 := (hmiss kv (by simp)).1
    have h2 := (hmiss kv (by simp)).2
    have hstep : scanStep text tl acc kv = acc := by
      unfold scanStep
      rw [h1, h2]
      simp
    rw [hstep]
    exact ih (fun k hk => hmiss k (by simp [hk])) acc

theorem foldl_scanStep_hit (text tl : List Char) (kws : List (String × String × ℚ))
    (hhit : ∃ kv ∈ kws, containsSub tl kv.1 = true ∨ containsSub text kv.1 = true) :
    ∀ acc : List (String × ℚ) × ℕ, (kws.foldl (scanStep text tl) acc).1 ≠ [] := by
  induction kws with
  | nil => simp at hhit
  | cons kv rest ih =>
    intro acc
    rw [List.foldl_cons]
    by_cases hc : (containsSub tl kv.1 || containsSub text kv.1) = true
    · refine foldl_scanStep_ne_nil text tl rest _ ?_
      unfold scanStep
      rw [hc]
      simp only
      exact addScore_ne_nil _ _ _
    · rcases hhit with ⟨k, hk, hkhit⟩
      rcases List.mem_cons.mp hk with rfl | hk'
      · exfalso
        rcases hkhit with h | h <;> simp [h] at hc
      · exact ih ⟨k, hk', hkhit⟩ _

theorem bestOf_mem (l : List (String × ℚ)) :
    ∀ b : String × ℚ, bestOf b l = b ∨ bestOf b l ∈ l := by
  induction l with
  | nil => intro b; left; rfl
  | cons hd tl ih =>
    intro b
    obtain ⟨lab, s⟩ := hd
    simp only [bestOf]
    rcases ih (if s > b.2 then (lab, s) else b) with h | h
    · rw [h]
      split
      · right; simp
      · left; rfl
    · right; exact List.mem_cons_of_mem _ h

theorem collectScores_labels (text tl : List Char) :
    ∀ p ∈ (collectScores text tl).1, p.1 ∈ validLabels := by
  refine foldl_scanStep_labels (· ∈ validLabels) text tl EMOTION_KEYWORDS ([], 0) (by simp) ?_
  intro kv hkv
  fin_cases hkv <;> simp [validLabels]

/-- C9: for every input string, the rule-based `recognize` returns a label from
the fixed 8-label set with intensity and confidence in [0,1]; blank text yields
`neutral`/0.3/0.9; text with no keyword hit yields `neutral`/0.3/0.5; on a
keyword hit the punctuation-adjusted intensity lies in [0.1, 1] and the
confidence is capped at 0.9. -/
theorem recognize_spec (text : String) :
    ((recognize text).label ∈ validLabels ∧
      0 ≤ (recognize text).intensity ∧ (recognize text).intensity ≤ 1 ∧
      0 ≤ (recognize text).confidence ∧ (recognize text).confidence ≤ 1) ∧
    (isBlank text = true → recognize text = ⟨"neutral", 3/10, 9/10⟩) ∧
    (isBlank text = false →
      (∀ kv ∈ EMOTION_KEYWORDS,
        containsSub (text.data.map Char.toLower) kv.1 = false ∧
        containsSub text.data kv.1 = false) →
      recognize text = ⟨"neutral", 3/10, 1/2⟩) ∧
    (isBlank text = false →
      (∃ kv ∈ EMOTION_KEYWORDS,
        containsSub (text.data.map Char.toLower) kv.1 = true ∨
        containsSub text.data kv.1 = true) →
      1/10 ≤ (recognize text).intensity ∧ (recognize text).intensity ≤ 1 ∧
      (recognize text).confidence ≤ 9/10) := by
  have h01 : round2 (1/10 : ℚ) = 1/10 := round2_fix (n := 10) (by push_cast; norm_num)
  have h1 : round2 (1 : ℚ) = 1 := round2_fix (n := 100) (by push_cast; norm_num)
  have h0 : round2 (0 : ℚ) = 0 := round2_fix (n := 0) (by push_cast; norm_num)
  have h09 : round2 (9/10 : ℚ) = 9/10 := round2_fix (n := 90) (by push_cast; norm_num)
  by_cases hb : isBlank text
  · rw [recognize, if_pos hb]
    exact ⟨⟨by simp [validLabels], by norm_num, by norm_num, by norm_num, by norm_num⟩,
      fun _ => rfl, fun hnb => absurd hb (by simp [hnb]), fun hnb => absurd hb (by simp [hnb])⟩
  · have hrec : recognize text =
        pickEmotion text.data (collectScores text.data (text.data.map Char.toLower)) := by
      rw [recognize, if_neg hb]
    rcases hsc : collectScores text.data (text.data.map Char.toLower) with ⟨scores, hits⟩
    rcases scores with _ | ⟨s0, rest⟩
    · have hval : recognize text = ⟨"neutral", 3/10, 1/2⟩ := by
        rw [hrec, hsc, pickEmotion]
      refine ⟨⟨by rw [hval]; simp [validLabels], by rw [hval]; norm_num, by rw [hval]; norm_num,
          by rw [hval]; norm_num, by rw [hval]; norm_num⟩,
        fun hbt => absurd hbt (by simpa using hb), fun _ _ => hval, fun _ hhit => ?_⟩
      exfalso
      have := foldl_scanStep_hit text.data (text.data.map Char.toLower) EMOTION_KEYWORDS hhit ([], 0)
      rw [show EMOTION_KEYWORDS.foldl (scanStep text.data (text.data.map Char.toLower)) ([], 0) =
        collectScores text.data (text.data.map Char.toLower) from rfl, hsc] at this
      exact this rfl
    · have hval : recognize text =
          ⟨(bestOf s0 rest).1,
            round2 (max (1/10) (min 1 (min 1 (bestOf s0 rest).2 + punctBoost text.data))),
            round2 (min (9/10) (4/10 + (hits : ℚ) * (15/100)))⟩ := by
        rw [hrec, hsc, pickEmotion]
      set adjusted := max (1/10 : ℚ) (min 1 (min 1 (bestOf s0 rest).2 + punctBoost text.data))
        with hadj
      set conf := min (9/10 : ℚ) (4/10 + (hits : ℚ) * (15/100)) with hconf
      have hadj_lo : (1/10 : ℚ) ≤ adjusted := le_max_left _ _
      have hadj_hi : adjusted ≤ 1 := max_le (by norm_num) (min_le_left _ _)
      have hconf_lo : (0 : ℚ) ≤ conf := by
        have : (0 : ℚ) ≤ 4/10 + (hits : ℚ) * (15/100) := by positivity
        exact le_min (by norm_num) this
      have hconf_hi : conf ≤ 9/10 := min_le_left _ _
      have hint_lo : (1/10 : ℚ) ≤ round2 adjusted := h01 ▸ round2_mono hadj_lo
      have hint_hi : round2 adjusted ≤ 1 := h1 ▸ round2_mono hadj_hi
      have hc_lo : (0 : ℚ) ≤ round2 conf := h0 ▸ round2_mono hconf_lo
      have hc_hi : round2 conf ≤ 9/10 := h09 ▸ round2_mono hconf_hi
      have hlabel : (bestOf s0 rest).1 ∈ validLabels := by
        rcases bestOf_mem rest s0 with h | h
        · rw [h]
          exact collectScores_labels text.data (text.data.map Char.toLower) s0
            (by rw [hsc]; exact List.mem_cons_self _ _)
        · exact collectScores_labels text.data (text.data.map Char.toLower) _
            (by rw [hsc]; exact List.mem_cons_of_mem _ h)
      refine ⟨⟨by rw [hval]; exact hlabel, by simp only [hval]; linarith, by simp only [hval]; exact hint_hi,
          by simp only [hval]; exact hc_lo, by simp only [hval]; linarith⟩,
        fun hbt => absurd hbt (by simpa using hb), fun _ hmiss => ?_,
        fun _ _ => ⟨by simp only [hval]; exact hint_lo, by simp only [hval]; exact hint_hi,
          by simp only [hval]; exact hc_hi⟩⟩
      exfalso
      have := foldl_scanStep_no_hit text.data (text.data.map Char.toLower)
        EMOTION_KEYWORDS hmiss ([], 0)
      rw [show EMOTION_KEYWORDS.foldl (scanStep text.data (text.data.map Char.toLower)) ([], 0) =
        collectScores text.data (text.data.map Char.toLower) from rfl, hsc] at this
      simp at this

/-- C9 witness: concrete instances discharging each hypothesis of
`recognize_spec`. -/
theorem recognize_spec_witness :
    recognize "" = ⟨"neutral", 3/10, 9/10⟩ ∧ recognize "a" = ⟨"neutral", 3/10, 1/2⟩ ∧
      (1/10 : ℚ) ≤ (recognize "开心").intensity ∧ (recognize "开心").confidence ≤ 9/10 :=
  ⟨(recognize_spec "").2.1 (by decide),
    (recognize_spec "a").2.2.1 (by decide) (by decide),
    ((recognize_spec "开心").2.2.2 (by decide)
      ⟨("开心", "happy", 7/10), List.mem_cons_self _ _, Or.inr (by decide)⟩).1,
    ((recognize_spec "开心").2.2.2 (by decide)
      ⟨("开心", "happy", 7/10), List.mem_cons_self _ _, Or.inr (by decide)⟩).2.2⟩

/-! ### Short-term memory bound and FIFO (C7) -/

theorem trimFront_length_le {α : Type} (maxT : ℕ) :
    ∀ l : List α, (trimFront maxT l).length ≤ maxT := by
  intro l
  induction l with
  | nil => simp [trimFront]
  | cons x xs ih =>
    rw [trimFront]
    split
    · exact ih
    · next h => simpa using Nat.le_of_not_lt h

theorem trimFront_suffix {α : Type} (maxT : ℕ) :
    ∀ l : List α, trimFront maxT l <:+ l := by
  intro l
  induction l with
  | nil => simp [trimFront]
  | cons x xs ih =>
    rw [trimFront]
    split
    · exact ih.trans (List.suffix_cons x xs)
    · exact List.suffix_rfl

theorem foldl_appendToStm_length (stmMaxTurns : ℕ) :
    ∀ (msgs : List STMMessage) (stm : List STMMessage) (msg : STMMessage),
      ((msg :: msgs).foldl (appendToStm stmMaxTurns) stm).length ≤ stmMaxTurns := by
  intro msgs
  induction msgs with
  | nil => intro stm msg; exact trimFront_length_le stmMaxTurns _
  | cons m2 ms ih =>
    intro stm msg
    rw [List.foldl_cons]
    exact ih (appendToStm stmMaxTurns stm msg) m2

/-- C7: after any `append_to_stm` call the short-term memory length is at most
`stm_max_turns`; the retained list is a suffix of the old list plus the new
turn (oldest entries evicted first, order preserved); and the bound holds after
any nonempty sequence of append calls. -/
theorem append_to_stm_spec (stmMaxTurns : ℕ) (stm : List STMMessage) (msg : STMMessage) :
    (appendToStm stmMaxTurns stm msg).length ≤ stmMaxTurns ∧
    appendToStm stmMaxTurns stm msg <:+ stm ++ [msg] ∧
    ∀ msgs : List STMMessage,
      ((msg :: msgs).foldl (appendToStm stmMaxTurns) stm).length ≤ stmMaxTurns :=
  ⟨trimFront_length_le stmMaxTurns _, trimFront_suffix stmMaxTurns _,
    fun msgs => foldl_appendToStm_length stmMaxTurns msgs stm msg⟩

/-! ### Rate limiter admission (C10) -/

/-- C10: `SimpleRateLimiter.allow` is not atomic across its two windows — when
the per-user window admits but the per-group window is full, the call is
rejected with the user timestamp already recorded (and none recorded for the
group); when the per-user window is full, the call is rejected with no
timestamp recorded anywhere and the group store untouched. -/
theorem rate_limiter_non_atomic (cfg : RateLimiterConfig) (st : RateLimiterState)
    (now : ℚ) (uid gid : Int) (henabled : cfg.enabled = true) :
    (((evictOld cfg.windowSeconds now ((st.userCalls.lookup (toString uid)).getD [])).length
        < cfg.userMaxCalls) →
      (cfg.groupMaxCalls ≤
        (evictOld cfg.windowSeconds now ((st.groupCalls.lookup (toString gid)).getD [])).length) →
      rlAllow cfg st now (some uid) (some gid) =
        (false,
          { userCalls := alistSet st.userCalls (toString uid)
              ((evictOld cfg.windowSeconds now ((st.userCalls.lookup (toString uid)).getD []))
                ++ [now]),
            groupCalls := alistSet st.groupCalls (toString gid)
              (evictOld cfg.windowSeconds now ((st.groupCalls.lookup (toString gid)).getD [])) })) ∧
    ((cfg.userMaxCalls ≤
        (evictOld cfg.windowSeconds now ((st.userCalls.lookup (toString uid)).getD [])).length) →
      rlAllow cfg st now (some uid) (some gid) =
        (false,
          { userCalls := alistSet st.userCalls (toString uid)
              (evictOld cfg.windowSeconds now ((st.userCalls.lookup (toString uid)).getD [])),
            groupCalls := st.groupCalls })) := by
  constructor
  · intro hu hg
    rw [rlAllow, if_neg (by simp [henabled])]
    simp only [allowOne, if_neg (Nat.not_le_of_lt hu), if_pos hg]
    simp
  · intro hu
    rw [rlAllow, if_neg (by simp [henabled])]
    simp only [allowOne, if_pos hu]
    simp

/-- C10 witness: window 10 s, one call per window for both keys; the user
window is empty, the group window holds one fresh timestamp — the call is
rejected, yet the user window has recorded `now = 5`. -/
theorem rate_limiter_non_atomic_witness :
    rlAllow ⟨true, 10, 1, 1⟩ ⟨[], [("2", [1])]⟩ 5 (some 1) (some 2) =
      (false, { userCalls := [("1", [5])], groupCalls := [("2", [1])] }) := by
  have h := (rate_limiter_non_atomic ⟨true, 10, 1, 1⟩ ⟨[], [("2", [1])]⟩ 5 1 2 rfl).1
    (by simp [evictOld]) (by norm_num [evictOld, List.dropWhile])
  rw [h]
  have h1 : toString (1 : Int) = "1" := rfl
  have h2 : toString (2 : Int) = "2" := rfl
  norm_num [evictOld, List.dropWhile, alistSet, h1, h2]

/-! ### TTL purge of pending callback entries (C2) -/

/-- C2 (code-bug evidence): `ReplyHandler.handle` stores its pending entry with
`created_at` left at the `0.0` default, and the purge's truthiness guard
(`if value.created_at and ...`) skips entries with zero `created_at`, so the
entry survives a purge that runs arbitrarily long (here 10⁶ s ≫ TTL = 60 s)
after its creation, contradicting the claimed eager TTL purge. -/
theorem stale_reply_entry_survives_purge :
    (replyHandlerHandle [] (some 1) (some "42") (some 7) (some 8) "group" "hi") =
      ([("reply_check_1",
          { userId := some 7, groupId := some 8, messageType := "group",
            messageId := 1, rawMsg := "hi", createdAt := 0 })], true) ∧
    cleanupExpired
        [("reply_check_1",
          { userId := some 7, groupId := some 8, messageType := "group",
            messageId := 1, rawMsg := "hi", createdAt := 0 })] 1000000 60 =
      [("reply_check_1",
          { userId := some 7, groupId := some 8, messageType := "group",
            messageId := 1, rawMsg := "hi", createdAt := 0 })] ∧
    (1000000 : ℚ) - 0 > 60 := by
  refine ⟨rfl, ?_, by norm_num⟩
  simp [cleanupExpired, isExpired]

/-! ### Idempotent callback correlation (C1) -/

theorem lookup_filter_ne_none (k : String) :
    ∀ p : PendingMap, (p.filter (fun kv => !(kv.1 = k : Bool))).lookup k = none := by
  intro p
  induction p with
  | nil => rfl
  | cons hd tl ih =>
    obtain ⟨a, v⟩ := hd
    rw [List.filter_cons]
    by_cases hak : a = k
    · rw [if_neg (by simp [hak])]
      exact ih
    · rw [if_pos (by simp [hak])]
      have hka : (k == a) = false := beq_eq_false_iff_ne.mpr (fun h => hak h.symm)
      simp only [List.lookup, hka]
      exact ih

theorem replyCallbackHandle_of_lookup_none (tf : TextFns) (o : ReplyOracles)
    (pending : PendingMap) (echo targetMsg : String)
    (h : pending.lookup echo = none) :
    replyCallbackHandle tf o pending echo targetMsg = (pending, [], false) := by
  rw [replyCallbackHandle, pendingPop, h]

theorem replyCallbackHandle_consumes (tf : TextFns) (o : ReplyOracles)
    (pending : PendingMap) (echo targetMsg : String) :
    ((replyCallbackHandle tf o pending echo targetMsg).1).lookup echo = none := by
  rw [replyCallbackHandle, pendingPop]
  rcases h : pending.lookup echo with _ | saved
  · simpa using h
  · exact lookup_filter_ne_none echo pending

/-- C1: callback correlation is idempotent — a callback whose token has no
pending entry changes nothing, performs no provider call, no memory write and
no send; any handled callback consumes its entry; hence a replay of the same
token (with any event payload and any provider behaviour) after the first
delivery finds no entry and has no observable effect. -/
theorem reply_callback_idempotent (tf : TextFns) (o1 o2 : ReplyOracles)
    (pending : PendingMap) (echo t1 t2 : String) :
    (pending.lookup echo = none →
      replyCallbackHandle tf o1 pending echo t1 = (pending, [], false)) ∧
    ((replyCallbackHandle tf o1 pending echo t1).1).lookup echo = none ∧
    replyCallbackHandle tf o2 (replyCallbackHandle tf o1 pending echo t1).1 echo t2 =
      ((replyCallbackHandle tf o1 pending echo t1).1, [], false) :=
  ⟨replyCallbackHandle_of_lookup_none tf o1 pending echo t1,
    replyCallbackHandle_consumes tf o1 pending echo t1,
    replyCallbackHandle_of_lookup_none tf o2 _ echo t2
      (replyCallbackHandle_consumes tf o1 pending echo t1)⟩

/-- C1 witness: a callback for a token with no pending entry is dropped with no
effect. -/
theorem reply_callback_idempotent_witness :
    replyCallbackHandle tfId oTrivial [] "reply_check_1" "m" = ([], [], false) :=
  (reply_callback_idempotent tfId oTrivial oTrivial [] "reply_check_1" "m" "m").1 rfl

/-! ### Relation data lost by full-record persistence (C4) -/

/-- C4 (code-bug evidence): `save_relation` merges the relation into the stored
record, but `UserMemoryState.to_dict` has no `relation` key, so the next
`append_to_stm` (which persists via `save_user_state`) overwrites the file and
erases the stored relation data. -/
theorem relation_key_lost_after_append :
    (updateRelationOnInteraction (1/100) "u" 100
        { userCache := none, relationCache := none, file := none }).file.map
      StoredRecord.relation =
      some (some { userId := "u", familiarity := 11/100, trust := 1/2,
                   lastInteractionTs := 100 }) ∧
    (appendToStmOp 20 "u" "user" "hi" 101 { emotion := none, intensity := none, trigger := none }
        (updateRelationOnInteraction (1/100) "u" 100
          { userCache := none, relationCache := none, file := none })).file.map
      StoredRecord.relation = some none := by
  constructor
  · simp [updateRelationOnInteraction, getRelation, saveRelation, freshRelation]
    norm_num
  · simp [updateRelationOnInteraction, getRelation, saveRelation, freshRelation,
      appendToStmOp, getUserState, saveUserState, freshUserState, toStoredRecord]

/-! ### Dispatch ordering and first-match short-circuit (C5) -/

theorem runCommands_spec :
    ∀ (cmds : List CommandSpec) (k : ℕ), (∀ c ∈ cmds, c.handledRet = true) →
      runCommands k cmds =
        (match firstMatchIdx cmds with
         | some i =>
             ((List.range (i + 1)).map (fun j => DispatchStep.evalMatch (k + j)) ++
               [DispatchStep.execRun (k + i)], true)
         | none =>
             ((List.range cmds.length).map (fun j => DispatchStep.evalMatch (k + j)), false)) := by
  intro cmds
  induction cmds with
  | nil => intro k _; rfl
  | cons c rest ih =>
    intro k hAll
    have hc : c.handledRet = true := hAll c (by simp)
    have hmaps : ∀ n : ℕ,
        List.map (fun j => DispatchStep.evalMatch (k + j)) (List.range (n + 1)) =
          DispatchStep.evalMatch k ::
            List.map (fun j => DispatchStep.evalMatch (k + 1 + j)) (List.range n) := by
      intro n
      rw [List.range_succ_eq_map, List.map_cons, List.map_map]
      refine congrArg₂ _ (by simp) ?_
      apply List.map_congr_left
      intro a _
      simp only [Function.comp_apply]
      congr 1
      omega
    rw [runCommands]
    by_cases hm : c.matchRes
    · rw [if_pos hm, if_pos hc]
      rw [firstMatchIdx, if_pos hm]
      simp [List.range_succ]
    · rw [if_neg hm, firstMatchIdx, if_neg hm]
      rw [ih (k + 1) (fun x hx => hAll x (by simp [hx]))]
      rcases hf : firstMatchIdx rest with _ | i
      · simp only [Option.map_none']
        have hl : (c :: rest).length = rest.length + 1 := rfl
        rw [hl, hmaps rest.length]
      · simp only [Option.map_some']
        rw [hmaps (i + 1)]
        simp only [Prod.mk.injEq, List.cons_append]
        refine ⟨?_, trivial⟩
        have heq : k + 1 + i = k + (i + 1) := by omega
        rw [heq]

theorem runCommands_zero (cmds : List CommandSpec)
    (hAll : ∀ c ∈ cmds, c.handledRet = true) :
    runCommands 0 cmds = specFirstMatchTrace cmds := by
  rw [runCommands_spec cmds 0 hAll, specFirstMatchTrace]
  rcases firstMatchIdx cmds with _ | i <;> simp

/-- C5: in every dispatch the purge runs first and rate-limit admission (when
applicable) second, before any rule is looked at; a rate-limited message event
gets only the wait notice and is evaluated against no rule; otherwise the rule
loop behaves exactly as the spec-side first-match description: rules are
evaluated in list order up to the first match, which alone executes, and no
later rule is evaluated (at most one handler per event).  The hypothesis holds
for every assembled rule because `FunctionCommand.run` always returns `True`. -/
theorem dispatch_spec (cmds : List CommandSpec) (pending : PendingMap) (now : ℚ)
    (isMsg : Bool) (rl : Option (RateLimiterConfig × RateLimiterState))
    (uId gId : Option Int)
    (hAll : ∀ c ∈ cmds, c.handledRet = true) :
    (dispatch cmds pending now isMsg rl uId gId).pending = cleanupExpired pending now 60 ∧
    (dispatch cmds pending now isMsg rl uId gId).trace.head? = some DispatchStep.purge ∧
    (∀ cfg st, isMsg = true → rl = some (cfg, st) →
      (rlAllow cfg st now uId gId).1 = false →
      dispatch cmds pending now isMsg rl uId gId =
        { trace := [DispatchStep.purge, DispatchStep.rateCheck, DispatchStep.waitNotice],
          handled := true, pending := cleanupExpired pending now 60,
          limiter := some (rlAllow cfg st now uId gId).2 }) ∧
    (∀ cfg st, isMsg = true → rl = some (cfg, st) →
      (rlAllow cfg st now uId gId).1 = true →
      dispatch cmds pending now isMsg rl uId gId =
        { trace := DispatchStep.purge :: DispatchStep.rateCheck ::
            (specFirstMatchTrace cmds).1,
          handled := (specFirstMatchTrace cmds).2,
          pending := cleanupExpired pending now 60,
          limiter := some (rlAllow cfg st now uId gId).2 }) ∧
    (isMsg = false ∨ rl = none →
      dispatch cmds pending now isMsg rl uId gId =
        { trace := DispatchStep.purge :: (specFirstMatchTrace cmds).1,
          handled := (specFirstMatchTrace cmds).2,
          pending := cleanupExpired pending now 60,
          limiter := rl.map Prod.snd }) := by
  have hrc := runCommands_zero cmds hAll
  rcases isMsg with _ | _
  · rcases rl with _ | ⟨cfg, st⟩
    all_goals
      refine ⟨rfl, ?_, ?_, ?_, ?_⟩
      · simp [dispatch, hrc]
      · intro _ _ h; exact absurd h (by simp)
      · intro _ _ h; exact absurd h (by simp)
      · intro _; simp [dispatch, hrc]
  · rcases rl with _ | ⟨cfg, st⟩
    · refine ⟨rfl, ?_, ?_, ?_, ?_⟩
      · simp [dispatch, hrc]
      · intro _ _ _ h; exact absurd h (by simp)
      · intro _ _ _ h; exact absurd h (by simp)
      · intro _; simp [dispatch, hrc]
    · rcases hA : (rlAllow cfg st now uId gId).1 with _ | _
      · refine ⟨?_, ?_, ?_, ?_, ?_⟩
        · simp [dispatch, hA]
        · simp [dispatch, hA]
        · intro cfg' st' _ hsome _
          obtain ⟨rfl, rfl⟩ : cfg' = cfg ∧ st' = st := by
            constructor <;> injection hsome with h1 <;> simp_all
          simp [dispatch, hA]
        · intro cfg' st' _ hsome htrue
          obtain ⟨rfl, rfl⟩ : cfg' = cfg ∧ st' = st := by
            constructor <;> injection hsome with h1 <;> simp_all
          rw [hA] at htrue
          exact absurd htrue (by simp)
        · intro h
          rcases h with h | h <;> exact absurd h (by simp)
      · refine ⟨?_, ?_, ?_, ?_, ?_⟩
        · simp [dispatch, hA]
        · simp [dispatch, hA]
        · intro cfg' st' _ hsome hfalse
          obtain ⟨rfl, rfl⟩ : cfg' = cfg ∧ st' = st := by
            constructor <;> injection hsome with h1 <;> simp_all
          rw [hA] at hfalse
          exact absurd hfalse (by simp)
        · intro cfg' st' _ hsome _
          obtain ⟨rfl, rfl⟩ : cfg' = cfg ∧ st' = st := by
            constructor <;> injection hsome with h1 <;> simp_all
          simp [dispatch, hA, hrc]
        · intro h
          rcases h with h | h <;> exact absurd h (by simp)

/-- C5 witness: one always-matching rule behind an admitting rate limiter —
the trace is purge, rate check, then evaluation and execution of rule 0 only. -/
theorem dispatch_spec_witness :
    (dispatch [⟨true, true⟩] [] 0 true (some (⟨true, 10, 1, 1⟩, ⟨[], []⟩))
        (some 1) none).trace =
      [DispatchStep.purge, DispatchStep.rateCheck,
        DispatchStep.evalMatch 0, DispatchStep.execRun 0] := by
  have hallow : (rlAllow ⟨true, 10, 1, 1⟩ ⟨[], []⟩ 0 (some 1) none).1 = true := by
    simp [rlAllow, allowOne, evictOld, alistSet]
  have h := ((dispatch_spec [⟨true, true⟩] [] 0 true
      (some (⟨true, 10, 1, 1⟩, ⟨[], []⟩)) (some 1) none
      (by intro c hc; simp at hc; simp [hc])).2.2.2.1
    ⟨true, 10, 1, 1⟩ ⟨[], []⟩ rfl rfl hallow)
  rw [h]
  decide

/-! ### Circuit breaker (C6) -/

theorem runAttempts_invocations_pos (cfg : ChatConfig) (st : ChatState)
    (outcomes : List (ℚ × Option String)) (h : outcomes ≠ []) :
    1 ≤ (runAttempts cfg st outcomes).2.2 := by
  match outcomes with
  | [] => exact absurd rfl h
  | (t, some c) :: rest => simp [runAttempts]
  | (t, none) :: rest =>
    simp only [runAttempts]
    match rest with
    | [] => simp
    | r :: rs => simp

theorem runAttempts_last_fail (cfg : ChatConfig) (st : ChatState) (t : ℚ) :
    runAttempts cfg st [(t, none)] =
      (if cfg.failThreshold ≤ st.failCount + 1
        then (⟨st.failCount + 1, t + cfg.cooldownSeconds⟩ : ChatState)
        else ⟨st.failCount + 1, st.openUntil⟩, "脑子瓦特了...", 1) := rfl

theorem runAttempts_cons_cons_fail (cfg : ChatConfig) (st : ChatState) (t : ℚ)
    (r : ℚ × Option String) (rs : List (ℚ × Option String)) :
    runAttempts cfg st ((t, none) :: r :: rs) =
      ((runAttempts cfg (if cfg.failThreshold ≤ st.failCount + 1
          then (⟨st.failCount + 1, t + cfg.cooldownSeconds⟩ : ChatState)
          else ⟨st.failCount + 1, st.openUntil⟩) (r :: rs)).1,
       (runAttempts cfg (if cfg.failThreshold ≤ st.failCount + 1
          then (⟨st.failCount + 1, t + cfg.cooldownSeconds⟩ : ChatState)
          else ⟨st.failCount + 1, st.openUntil⟩) (r :: rs)).2.1,
       (runAttempts cfg (if cfg.failThreshold ≤ st.failCount + 1
          then (⟨st.failCount + 1, t + cfg.cooldownSeconds⟩ : ChatState)
          else ⟨st.failCount + 1, st.openUntil⟩) (r :: rs)).2.2 + 1) := rfl

theorem runAttempts_all_fail (cfg : ChatConfig) :
    ∀ (outcomes : List (ℚ × Option String)) (st : ChatState),
      (∀ x ∈ outcomes, x.2 = none) →
      (runAttempts cfg st outcomes).1.failCount = st.failCount + outcomes.length ∧
      (runAttempts cfg st outcomes).2.2 = outcomes.length ∧
      (∀ last, outcomes.getLast? = some last →
        cfg.failThreshold ≤ st.failCount + outcomes.length →
        (runAttempts cfg st outcomes).1.openUntil = last.1 + cfg.cooldownSeconds) := by
  intro outcomes
  induction outcomes with
  | nil => intro st _; refine ⟨by simp [runAttempts], by simp [runAttempts], ?_⟩
           intro last hl; simp at hl
  | cons x rest ih =>
    intro st hfail
    obtain ⟨t, o⟩ := x
    have ho : o = none := hfail (t, o) (by simp)
    subst ho
    rcases rest with _ | ⟨r, rs⟩
    · rw [runAttempts_last_fail]
      refine ⟨?_, by simp, ?_⟩
      · split <;> simp
      · intro last hl hth
        simp only [List.getLast?_singleton, Option.some.injEq] at hl
        subst hl
        simp only [List.length_cons, List.length_nil] at hth
        rw [if_pos (by omega : cfg.failThreshold ≤ st.failCount + 1)]
    · have hrest : ∀ x ∈ r :: rs, x.2 = none := fun x hx => hfail x (by simp [hx])
      rw [runAttempts_cons_cons_fail]
      split
      case isTrue hth =>
        have ihr := ih ⟨st.failCount + 1, t + cfg.cooldownSeconds⟩ hrest
        refine ⟨?_, ?_, ?_⟩
        · simp only [ihr.1]
          simp
          omega
        · simp only [ihr.2.1]
          simp
        · intro last hl hth2
          rw [List.getLast?_cons_cons] at hl
          exact ihr.2.2 last hl (by simp at hth2 ⊢; omega)
      case isFalse hth =>
        have ihr := ih ⟨st.failCount + 1, st.openUntil⟩ hrest
        refine ⟨?_, ?_, ?_⟩
        · simp only [ihr.1]
          simp
          omega
        · simp only [ihr.2.1]
          simp
        · intro last hl hth2
          rw [List.getLast?_cons_cons] at hl
          exact ihr.2.2 last hl (by simp at hth2 ⊢; omega)

/-- C6 counterexample: with `fail_threshold = 3` and `retry_attempts = 2`, a
single `_chat` call whose three attempts all fail raises `_fail_count` from 0
to 3 — each failed attempt counts, not one final failure per call — and that
one call already opens the circuit: the next call, 10 s later (within the 30 s
cooldown), returns the fixed busy reply with zero provider invocations. -/
theorem circuit_breaker_counterexample :
    (chat ⟨"k", 2, 3, 30⟩ ⟨0, 0⟩ 0 [(0, none), (1, none), (2, none)]).1.failCount = 3 ∧
    (chat ⟨"k", 2, 3, 30⟩ ⟨0, 0⟩ 0 [(0, none), (1, none), (2, none)]).1.failCount ≠ 1 ∧
    (chat ⟨"k", 2, 3, 30⟩ ⟨0, 0⟩ 0 [(0, none), (1, none), (2, none)]).1.openUntil = 32 ∧
    chat ⟨"k", 2, 3, 30⟩
        (chat ⟨"k", 2, 3, 30⟩ ⟨0, 0⟩ 0 [(0, none), (1, none), (2, none)]).1 10
        [(10, some "ok")] =
      ((chat ⟨"k", 2, 3, 30⟩ ⟨0, 0⟩ 0 [(0, none), (1, none), (2, none)]).1,
        "现在有点忙，稍后再找我聊聊吧~", 0) := by
  have hch : chat ⟨"k", 2, 3, 30⟩ ⟨0, 0⟩ 0 [(0, none), (1, none), (2, none)] =
      runAttempts ⟨"k", 2, 3, 30⟩ ⟨0, 0⟩ [(0, none), (1, none), (2, none)] := by
    rw [chat, if_neg (by simp), if_neg (by norm_num)]
  have hall := runAttempts_all_fail ⟨"k", 2, 3, 30⟩ [(0, none), (1, none), (2, none)]
    ⟨0, 0⟩ (by intro x hx; simp at hx; rcases hx with h | h | h <;> simp [h])
  have hfc : (chat ⟨"k", 2, 3, 30⟩ ⟨0, 0⟩ 0 [(0, none), (1, none), (2, none)]).1.failCount = 3 := by
    rw [hch]; simpa using hall.1
  have hou : (chat ⟨"k", 2, 3, 30⟩ ⟨0, 0⟩ 0 [(0, none), (1, none), (2, none)]).1.openUntil = 32 := by
    rw [hch]
    have := hall.2.2 (2, none) (by rfl) (by simp)
    rw [this]
    norm_num
  refine ⟨hfc, by rw [hfc]; norm_num, hou, ?_⟩
  rw [chat, if_neg (by simp), if_pos (by rw [hou]; norm_num)]

/-- C6 (amended): the breaker short-circuits every call strictly within the
cooldown to the fixed busy reply with no provider invocation; a call at or
after `_circuit_open_until` attempts the provider; a successful attempt resets
the consecutive-failure count to zero; and every failed *attempt* (not one per
completed call) increments the count, the circuit (re)opening for `cooldown`
seconds from the failing attempt's time once the count reaches the threshold. -/
theorem circuit_breaker_spec (cfg : ChatConfig) (st : ChatState) (callTime : ℚ)
    (outcomes : List (ℚ × Option String)) (hkey : cfg.apiKey ≠ "") :
    (callTime < st.openUntil →
      chat cfg st callTime outcomes = (st, "现在有点忙，稍后再找我聊聊吧~", 0)) ∧
    (st.openUntil ≤ callTime → outcomes ≠ [] →
      1 ≤ (chat cfg st callTime outcomes).2.2) ∧
    (∀ t c rest, st.openUntil ≤ callTime → outcomes = (t, some c) :: rest →
      (chat cfg st callTime outcomes).1 = { st with failCount := 0 } ∧
      (chat cfg st callTime outcomes).2 = (c, 1)) ∧
    (st.openUntil ≤ callTime → (∀ x ∈ outcomes, x.2 = none) →
      (chat cfg st callTime outcomes).1.failCount = st.failCount + outcomes.length ∧
      (chat cfg st callTime outcomes).2.2 = outcomes.length ∧
      (∀ last, outcomes.getLast? = some last →
        cfg.failThreshold ≤ st.failCount + outcomes.length →
        (chat cfg st callTime outcomes).1.openUntil = last.1 + cfg.cooldownSeconds)) := by
  have hopen : ∀ h : st.openUntil ≤ callTime,
      chat cfg st callTime outcomes = runAttempts cfg st outcomes := by
    intro h
    rw [chat, if_neg hkey, if_neg (not_lt.mpr h)]
  refine ⟨?_, ?_, ?_, ?_⟩
  · intro h
    rw [chat, if_neg hkey, if_pos h]
  · intro h hne
    rw [hopen h]
    exact runAttempts_invocations_pos cfg st outcomes hne
  · intro t c rest h hout
    rw [hopen h, hout]
    exact ⟨rfl, rfl⟩
  · intro h hfail
    rw [hopen h]
    exact runAttempts_all_fail cfg outcomes st hfail

/-- C6 witness: concrete open-circuit short-circuit, post-cooldown retry with a
successful reset, and per-attempt failure counting. -/
theorem circuit_breaker_spec_witness :
    chat ⟨"k", 2, 3, 30⟩ ⟨3, 32⟩ 10 [(10, some "ok")] =
      (⟨3, 32⟩, "现在有点忙，稍后再找我聊聊吧~", 0) ∧
    chat ⟨"k", 2, 3, 30⟩ ⟨3, 32⟩ 33 [(33, some "ok")] = (⟨0, 32⟩, "ok", 1) ∧
    (chat ⟨"k", 2, 3, 30⟩ ⟨0, 0⟩ 5 [(5, none), (6, none), (7, none)]).1.failCount = 3 := by
  refine ⟨?_, ?_, ?_⟩
  · exact (circuit_breaker_spec ⟨"k", 2, 3, 30⟩ ⟨3, 32⟩ 10 [(10, some "ok")]
      (by simp)).1 (by norm_num)
  · have h := (circuit_breaker_spec ⟨"k", 2, 3, 30⟩ ⟨3, 32⟩ 33 [(33, some "ok")]
      (by simp)).2.2.1 33 "ok" [] (by norm_num) rfl
    have h1 := h.1
    have h2 := h.2
    rw [Prod.ext_iff]
    exact ⟨h1, h2⟩
  · exact ((circuit_breaker_spec ⟨"k", 2, 3, 30⟩ ⟨0, 0⟩ 5 [(5, none), (6, none), (7, none)]
      (by simp)).2.2.2 (by norm_num)
      (by intro x hx; simp at hx; rcases hx with h | h | h <;> simp [h])).1.trans (by simp)

/-! ### Remote-classifier fallback (C3) -/

theorem recognize_no_hit (text : String) (hb : isBlank text = false)
    (hmiss : ∀ kv ∈ EMOTION_KEYWORDS,
      containsSub (text.data.map Char.toLower) kv.1 = false ∧
      containsSub text.data kv.1 = false) :
    recognize text = ⟨"neutral", 3/10, 1/2⟩ := by
  have hsc : collectScores text.data (text.data.map Char.toLower) = ([], 0) :=
    foldl_scanStep_no_hit text.data (text.data.map Char.toLower) EMOTION_KEYWORDS hmiss ([], 0)
  rw [recognize, if_neg (by simp [hb]), hsc, pickEmotion]

/-- C3 counterexample: for the 10-character text "abcdefghij" (no keyword hit,
so the rule result is neutral/0.3/0.5 with confidence < 0.7 and the remote path
is taken), a remote-classifier timeout makes `recognize_async` return the
client's degraded triple neutral/0.5/0.3 — not the rule-based result, because
`recognize_emotion` catches the timeout itself instead of raising into the
recognizer's fallback branch. -/
theorem recognize_async_counterexample :
    recognizeAsync "abcdefghij" true true "k" LlmOutcome.timeout =
      ⟨"neutral", 1/2, 3/10⟩ ∧
    recognize "abcdefghij" = ⟨"neutral", 3/10, 1/2⟩ ∧
    recognizeAsync "abcdefghij" true true "k" LlmOutcome.timeout ≠
      recognize "abcdefghij" := by
  have hrule : recognize "abcdefghij" = ⟨"neutral", 3/10, 1/2⟩ :=
    recognize_no_hit "abcdefghij" (by decide) (by decide)
  have hasync : recognizeAsync "abcdefghij" true true "k" LlmOutcome.timeout =
      ⟨"neutral", 1/2, 3/10⟩ := by
    rw [recognizeAsync, if_neg (by decide), if_neg (by decide)]
    rw [if_neg (by rw [hrule]; norm_num), if_pos ⟨rfl, rfl⟩]
    rw [recognizeEmotionClient, if_neg (by decide), if_neg (by decide)]
  refine ⟨hasync, hrule, ?_⟩
  rw [hasync, hrule]
  intro h
  have := congrArg UserEmotion.intensity h
  norm_num at this

/-- C3 (amended): on the remote-classifier path, a timeout or any other failure
of the remote call yields the client's fixed degraded result neutral/0.5/0.3
(not the rule result); no failure propagates — `recognize_async` always returns
a value. -/
theorem recognize_async_degraded (text apiKey : String) (out : LlmOutcome)
    (hb : isBlank text = false) (hlen : ¬ text.length < 10)
    (hrule : ¬(7/10 ≤ (recognize text).confidence ∧ (recognize text).label ≠ "neutral"))
    (hkey : apiKey ≠ "")
    (hout : out = LlmOutcome.timeout ∨ out = LlmOutcome.failure) :
    recognizeAsync text true true apiKey out = ⟨"neutral", 1/2, 3/10⟩ := by
  rcases hout with h | h <;> subst h <;>
    rw [recognizeAsync, if_neg (by simp [hb]), if_neg hlen, if_neg hrule, if_pos ⟨rfl, rfl⟩,
      recognizeEmotionClient, if_neg (by simp [hb]), if_neg hkey]

/-- C3 witness: the amended behaviour at the concrete timeout instance. -/
theorem recognize_async_degraded_witness :
    recognizeAsync "abcdefghij" true true "k" LlmOutcome.timeout =
      ⟨"neutral", 1/2, 3/10⟩ := by
  apply recognize_async_degraded "abcdefghij" "k" LlmOutcome.timeout (by decide) (by decide)
  · rw [recognize_no_hit "abcdefghij" (by decide) (by decide)]
    norm_num
  · decide
  · exact Or.inl rfl

/-! ### Long-term memory extraction (C8) -/

theorem isDuplicateLtm_of_shorter {l c : List LtmEntry} (hpre : l <+: c) (e : LtmEntry)
    (h : isDuplicateLtm c e = false) : isDuplicateLtm l e = false := by
  cases hb : isDuplicateLtm l e with
  | false => rfl
  | true =>
    exfalso
    rw [isDuplicateLtm, List.any_eq_true] at hb
    obtain ⟨x, hx, hpx⟩ := hb
    have hc : isDuplicateLtm c e = true := by
      rw [isDuplicateLtm, List.any_eq_true]
      exact ⟨x, hpre.subset hx, hpx⟩
    rw [h] at hc
    exact Bool.noConfusion hc

theorem processStmMsg_cases (c : List LtmEntry) (m : STMMessage) :
    processStmMsg c m = c ∨
      ∃ e, processStmMsg c m = c ++ [e] ∧ isDuplicateLtm c e = false ∧
        e.importance = calcImportance m.text m.meta ∧
        7/10 ≤ calcImportance m.text m.meta := by
  rw [processStmMsg]
  split
  · left; rfl
  · split
    · split
      · left; rfl
      · next hdup =>
          right
          exact ⟨ltmEntryOf m, rfl, by simpa using hdup, rfl, by assumption⟩
    · left; rfl

theorem midLtm_chain (ltm0 : List LtmEntry) :
    ∀ (stm : List STMMessage) (c : List LtmEntry), ltm0 <+: c →
      (∀ e ∈ c, e ∈ ltm0 ∨ (isDuplicateLtm ltm0 e = false ∧ 7/10 ≤ e.importance)) →
      (ltm0 <+: stm.foldl processStmMsg c ∧
        ∀ e ∈ stm.foldl processStmMsg c,
          e ∈ ltm0 ∨ (isDuplicateLtm ltm0 e = false ∧ 7/10 ≤ e.importance)) := by
  intro stm
  induction stm with
  | nil => intro c h1 h2; exact ⟨h1, h2⟩
  | cons m ms ih =>
    intro c h1 h2
    rw [List.foldl_cons]
    rcases processStmMsg_cases c m with hc | ⟨e, hc, hdup, himp, hth⟩
    · rw [hc]; exact ih c h1 h2
    · rw [hc]
      refine ih (c ++ [e]) (h1.trans (List.prefix_append c [e])) ?_
      intro x hx
      rcases List.mem_append.mp hx with hx | hx
      · exact h2 x hx
      · simp only [List.mem_singleton] at hx
        subst hx
        exact Or.inr ⟨isDuplicateLtm_of_shorter h1 x hdup, himp ▸ hth⟩

theorem ltmKeyGE_trans (a b c : LtmEntry) (hab : ltmKeyGE a b = true)
    (hbc : ltmKeyGE b c = true) : ltmKeyGE a c = true := by
  simp only [ltmKeyGE, Bool.or_eq_true, Bool.and_eq_true, decide_eq_true_eq] at *
  rcases hab with h1 | ⟨h1, h2⟩ <;> rcases hbc with h3 | ⟨h3, h4⟩
  · exact Or.inl (by linarith)
  · exact Or.inl (by linarith [le_of_eq h3])
  · exact Or.inl (by linarith [le_of_eq h1])
  · exact Or.inr ⟨by linarith [le_of_eq h1, le_of_eq h3], by linarith⟩

theorem ltmKeyGE_total (a b : LtmEntry) : (ltmKeyGE a b || ltmKeyGE b a) = true := by
  simp only [ltmKeyGE, Bool.or_eq_true, Bool.and_eq_true, decide_eq_true_eq]
  rcases lt_trichotomy a.importance b.importance with h | h | h
  · exact Or.inr (Or.inl h)
  · rcases le_total a.ts b.ts with ht | ht
    · exact Or.inr (Or.inr ⟨h.symm, ht⟩)
    · exact Or.inl (Or.inr ⟨h, ht⟩)
  · exact Or.inl (Or.inl h)

theorem ltmKeyGE_imp {x y : LtmEntry} (h : ltmKeyGE x y = true) :
    y.importance ≤ x.importance := by
  simp only [ltmKeyGE, Bool.or_eq_true, Bool.and_eq_true, decide_eq_true_eq] at h
  rcases h with h | ⟨h, _⟩
  · exact le_of_lt h
  · exact le_of_eq h.symm

/-- C8: after any `extract_ltm_from_stm` call starting from an in-capacity LTM
list, the LTM length stays ≤ 50; every retained entry was either already
present or was promoted with importance ≥ 0.7 and with no near-duplicate
(exact text or 20-character-prefix match) in the pre-existing LTM; and when the
cap is applied, the dropped entries all have importance ≤ that of every
retained entry (highest-importance entries are kept). -/
theorem extract_ltm_spec (stm : List STMMessage) (ltm0 : List LtmEntry)
    (h0 : ltm0.length ≤ 50) :
    (extractLtm stm ltm0).length ≤ 50 ∧
    (∀ e ∈ extractLtm stm ltm0,
      e ∈ ltm0 ∨ (isDuplicateLtm ltm0 e = false ∧ 7/10 ≤ e.importance)) ∧
    (¬ stm.length < 5 → 50 < (midLtm stm ltm0).length →
      ∃ dropped, (midLtm stm ltm0).Perm (extractLtm stm ltm0 ++ dropped) ∧
        ∀ x ∈ extractLtm stm ltm0, ∀ y ∈ dropped, y.importance ≤ x.importance) := by
  have hmid := midLtm_chain ltm0 stm ltm0 List.prefix_rfl (fun e he => Or.inl he)
  by_cases hlen : stm.length < 5
  · rw [extractLtm, if_pos hlen]
    exact ⟨h0, fun e he => Or.inl he, fun h => absurd hlen h⟩
  · rw [extractLtm, if_neg hlen]
    by_cases hcap : 50 < (midLtm stm ltm0).length
    · have hsorted : List.Pairwise (fun a b => ltmKeyGE a b = true)
          ((midLtm stm ltm0).mergeSort ltmKeyGE) :=
        List.sorted_mergeSort ltmKeyGE_trans ltmKeyGE_total (midLtm stm ltm0)
      have hperm : ((midLtm stm ltm0).mergeSort ltmKeyGE).Perm (midLtm stm ltm0) :=
        List.mergeSort_perm (midLtm stm ltm0) ltmKeyGE
      have hcl : capLtm (midLtm stm ltm0) =
          ((midLtm stm ltm0).mergeSort ltmKeyGE).take 50 := by
        rw [capLtm, if_pos hcap]
      refine ⟨?_, ?_, ?_⟩
      · rw [hcl, List.length_take]
        exact min_le_left _ _
      · intro e he
        rw [hcl] at he
        have : e ∈ midLtm stm ltm0 :=
          hperm.subset (List.take_subset 50 _ he)
        exact hmid.2 e this
      · intro _ _
        refine ⟨((midLtm stm ltm0).mergeSort ltmKeyGE).drop 50, ?_, ?_⟩
        · rw [hcl]
          rw [List.take_append_drop]
          exact hperm.symm
        · intro x hx y hy
          rw [hcl] at hx
          have hpw := hsorted
          rw [← List.take_append_drop 50 ((midLtm stm ltm0).mergeSort ltmKeyGE)] at hpw
          exact ltmKeyGE_imp ((List.pairwise_append.mp hpw).2.2 x hx y hy)
    · have hcl : capLtm (midLtm stm ltm0) = midLtm stm ltm0 := by
        rw [capLtm, if_neg hcap]
      refine ⟨?_, ?_, ?_⟩
      · rw [hcl]
        omega
      · intro e he
        rw [hcl] at he
        exact hmid.2 e he
      · intro _ h50
        exact absurd h50 hcap

/-- C8 witness: the empty instance discharging the in-capacity hypothesis. -/
theorem extract_ltm_spec_witness : (extractLtm [] []).length ≤ 50 :=
  (extract_ltm_spec [] [] (by decide)).1

end ShashaBot
